import Mathlib

/-!
# Shallow embedding of `src/bypass.cc` (node-v8-bypass)

The source file implements two things:

* a recursive, lossy conversion between a v8 value (`Handle<Value>`) and an
  owned tree of `JsValue` objects (`from_v8`, and the virtual `to_v8`
  methods of `JsUndefined`, `JsString`, `JsNumber`, `JsInt32`, `JsUint32`,
  `JsArray`, `JsObj`);
* `BypassStore`, a cache mapping `int64_t` keys to `JsValue` trees backed by
  a `std::map`, with methods `Set`, `Get`, `Del`, `List`.

This development embeds both.  v8 values are modelled by the inductive
`V8Value`; the owned tree by `JsValue`; `std::map` by an association list
kept sorted by the map's comparator (`mapInsert` / `mapLookup` /
`mapErase`), which is exactly the observable behaviour of `std::map`:
unique keys, ordered iteration, `operator[]` overwrite.  Comparators are
explicit `Bool`-valued functions, as `std::map` uses `std::less`:
`strLt` for `std::string` and `intLt` for `int64_t`.
-/

namespace Bypass

/-- Model of an IEEE-754 double as observed by the source: the source only
ever moves doubles around (`NumberValue`), tests `IsInt32`, and truncates
(`Int32Value`/`Uint32Value`), so a double is modelled by its exact value —
a rational for finite values — plus the special values that are not
rationals.  `finite 0` is positive zero; `negZero` is the distinct IEEE
negative zero. -/
inductive Dbl : Type
| finite (q : ℚ)
| negZero
| nan
| posInf
| negInf
deriving DecidableEq

/-- Two's-complement truncation of an integer to a signed 32-bit value, the
effect of converting an `int64_t` to `int32_t` (as in `Int32::New(iter->first)`). -/
def toInt32 (n : ℤ) : ℤ := (n + 2 ^ 31) % 2 ^ 32 - 2 ^ 31

/-- Truncation of a rational toward zero, the rounding used by v8 when
converting a double to an integer type. -/
def ratTrunc (q : ℚ) : ℤ := Int.sign q.num * (q.num.natAbs / q.den : ℕ)

/-- v8 `Value::IsInt32`: the double holds a value that is exactly a signed
32-bit integer (negative zero, `NaN` and infinities are not). -/
def Dbl.isInt32 : Dbl → Bool
| .finite q => q.den == 1 && decide (-(2 ^ 31) ≤ q.num) && decide (q.num < 2 ^ 31)
| _ => false

/-- v8 `Value::Int32Value`: truncate toward zero, then wrap to 32 bits. -/
def Dbl.int32Value : Dbl → ℤ
| .finite q => toInt32 (ratTrunc q)
| _ => 0

/-- v8 `Value::Uint32Value`: truncate toward zero, then wrap to unsigned 32 bits. -/
def Dbl.uint32Value : Dbl → ℕ
| .finite q => (ratTrunc q % 2 ^ 32).toNat
| _ => 0

/-- A v8 value (`Handle<Value>`) as the source can observe it: the dispatch
in the global `from_v8` distinguishes numbers, strings, arrays, other
objects, and everything else.  Booleans, `undefined`, `null` and functions
are the "everything else" shapes named by the spec (§4.1 step 6); an
object is its own-property list in own-property order.  Being an inductive
type, every `V8Value` is finite and acyclic — cyclic foreign structures
are out of contract (spec §3). -/
inductive V8Value : Type
| num (d : Dbl)
| str (s : String)
| boolean (b : Bool)
| undefined
| null
| func
| arr (elems : List V8Value)
| obj (props : List (String × V8Value))

/-- The owned value tree: one constructor per concrete `JsValue` subclass of
the source, with the fields each class stores.  `JsString` stores the UTF-8
bytes (`m_buff`, represented here by the string they spell) together with
the byte count `m_size`; `JsObj` stores a `std::map<std::string, ...>`,
modelled as a key-sorted association list. -/
inductive JsValue : Type
| JsUndefined
| JsString (m_buff : String) (m_size : ℕ)
| JsNumber (m_val : Dbl)
| JsInt32 (m_val : ℤ)
| JsUint32 (m_val : ℕ)
| JsArray (m_vals : List JsValue)
| JsObj (m_values : List (String × JsValue))

/-- Lexicographic comparison of character lists by code point, the order of
`std::string::operator<` (bytewise comparison; identical to code-point
order on the ASCII-range keys the source produces). -/
def charListLt : List Char → List Char → Bool
| [], [] => false
| [], _ :: _ => true
| _ :: _, [] => false
| a :: as, b :: bs =>
  if a.toNat < b.toNat then true
  else if b.toNat < a.toNat then false
  else charListLt as bs

/-- `std::less<std::string>`. -/
def strLt (a b : String) : Bool := charListLt a.toList b.toList

/-- `std::less<int64_t>`. -/
def intLt (a b : ℤ) : Bool := decide (a < b)

/-- `std::map` insertion (`m[k] = v`): keep the list sorted by the
comparator `lt`, replacing an entry whose key is equivalent (neither less). -/
def mapInsert {κ β : Type} (lt : κ → κ → Bool) (k : κ) (v : β) :
    List (κ × β) → List (κ × β)
| [] => [(k, v)]
| (k2, v2) :: rest =>
  if lt k k2 then (k, v) :: (k2, v2) :: rest
  else if lt k2 k then (k2, v2) :: mapInsert lt k v rest
  else (k, v) :: rest

/-- `std::map::find`: the entry whose key is equivalent to `k`, if any. -/
def mapLookup {κ β : Type} (lt : κ → κ → Bool) (k : κ) : List (κ × β) → Option β
| [] => none
| (k2, v2) :: rest => if !lt k k2 && !lt k2 k then some v2 else mapLookup lt k rest

/-- `std::map::erase(key)`: remove the entry equivalent to `k` (keys are
unique, so dropping every equivalent entry is the same thing), keep the rest. -/
def mapErase {κ β : Type} (lt : κ → κ → Bool) (k : κ) : List (κ × β) → List (κ × β)
| [] => []
| (k2, v2) :: rest =>
  if lt k2 k || lt k k2 then (k2, v2) :: mapErase lt k rest else mapErase lt k rest

/-- Fold a list of insertions into a map, leftmost first (the shape of the
property loop in `JsObj::from_v8`). -/
def mapInsertAll {κ β : Type} (lt : κ → κ → Bool) :
    List (κ × β) → List (κ × β) → List (κ × β)
| [], m => m
| p :: rest, m => mapInsertAll lt rest (mapInsert lt p.1 p.2 m)

/-- The properties a `std::map` comparator is required to have
(`std::less` on a totally ordered key type satisfies all four; for such a
comparator "neither less" is plain equality). -/
structure LtSpec {κ : Type} (lt : κ → κ → Bool) : Prop where
  irrefl : ∀ a, lt a a = false
  asymm : ∀ a b, lt a b = true → lt b a = false
  trans : ∀ a b c, lt a b = true → lt b c = true → lt a c = true
  antisymm : ∀ a b, lt a b = false → lt b a = false → a = b

/-- Modelled from the spec: `String::AsciiValue` (v8 library code, not in
`src/`) used by `JsObj::from_v8` for property names.  Per spec §4.1/§9
"only ASCII-range names were correctly extracted", so the extraction is the
identity exactly on ASCII characters and mangles anything above the ASCII
range (to `?` here). -/
def asciiValue (s : String) : String :=
  ⟨s.toList.map (fun c => if c.toNat ≤ 127 then c else '?')⟩

/-- Reading a `std::string` through `c_str()` into `String::New(const char*)`
(as `JsObj::to_v8` does for keys) stops at the first NUL byte. -/
def cstr (s : String) : String :=
  ⟨s.toList.takeWhile (fun c => decide (c.toNat ≠ 0))⟩

/-- Modelled from the spec: v8 `Value::IntegerValue` (library code, not in
`src/`), used to read the `key` argument of `Set`/`Get`/`Del`.  Per spec §6
the original silently coerces a missing or non-numeric key to `0`; a
numeric key yields its value truncated toward zero (non-finite doubles also
give `0`). -/
def integerValue : V8Value → ℤ
| .num (.finite q) => ratTrunc q
| _ => 0

mutual

/-- The global `from_v8` of the source: classify a v8 value and build the
owned tree.  Dispatch order as in the source: `IsNumber` (with the nested
`IsInt32` test), `IsString`, `IsArray`, `IsObject`, otherwise `JsUndefined`.
The function is total: no input is rejected. -/
def from_v8 : V8Value → JsValue
| .num d => if d.isInt32 then .JsInt32 d.int32Value else .JsNumber d
| .str s => .JsString s s.utf8ByteSize
| .arr elems => .JsArray (fromElems elems)
| .obj props => .JsObj (fromProps props [])
| .boolean _ => .JsUndefined
| .undefined => .JsUndefined
| .null => .JsUndefined
| .func => .JsUndefined

/-- The element loop of `JsArray::from_v8`: indices `0..length-1` in order. -/
def fromElems : List V8Value → List JsValue
| [] => []
| v :: rest => from_v8 v :: fromElems rest

/-- The property loop of `JsObj::from_v8`: for each name in order,
`m_values[asciiValue name] = from_v8 value`. -/
def fromProps : List (String × V8Value) → List (String × JsValue) → List (String × JsValue)
| [], m => m
| (k, v) :: rest, m => fromProps rest (mapInsert strLt (asciiValue k) (from_v8 v) m)

end

mutual

/-- The virtual `to_v8` methods: rebuild a fresh v8 value from the owned
tree.  `JsInt32`/`JsUint32` rebuild via `Int32::New`/`Uint32::New` (exact
integers of that width), `JsNumber` via `Number::New` (the stored double,
unchanged), `JsString` via `String::New(m_buff, m_size)`, `JsObj` emits its
map in iteration (key-sorted) order with keys read through `c_str()`. -/
def to_v8 : JsValue → V8Value
| .JsUndefined => .undefined
| .JsString m_buff _ => .str m_buff
| .JsNumber d => .num d
| .JsInt32 n => .num (.finite (n : ℚ))
| .JsUint32 n => .num (.finite (n : ℚ))
| .JsArray vs => .arr (toElems vs)
| .JsObj m => .obj (toProps m)

/-- The element loop of `JsArray::to_v8` (no stored pointer is null, so
every element is emitted). -/
def toElems : List JsValue → List V8Value
| [] => []
| v :: rest => to_v8 v :: toElems rest

/-- The member loop of `JsObj::to_v8`. -/
def toProps : List (String × JsValue) → List (String × V8Value)
| [] => []
| (k, v) :: rest => (cstr k, to_v8 v) :: toProps rest

end

/-- `BypassStore::CacheMap`, a `std::map<int64_t, shared_ptr<JsValue>>`. -/
abbrev CacheMap := List (ℤ × JsValue)

/-- `BypassStore::Set`: coerce the key, encode the value, overwrite. -/
def BypassStore.Set (store : CacheMap) (key val : V8Value) : CacheMap :=
  mapInsert intLt (integerValue key) (from_v8 val) store

/-- `BypassStore::Get`: coerce the key, look it up; `Undefined()` when
absent, otherwise `to_v8` of the stored tree.  The pair records the store
the method leaves behind (`Get` only reads `m_cache`). -/
def BypassStore.Get (store : CacheMap) (key : V8Value) : V8Value × CacheMap :=
  (match mapLookup intLt (integerValue key) store with
   | none => .undefined
   | some v => to_v8 v, store)

/-- `BypassStore::Del`: coerce the key, erase the entry if present. -/
def BypassStore.Del (store : CacheMap) (key : V8Value) : CacheMap :=
  mapErase intLt (integerValue key) store

/-- `BypassStore::List`: iterate the map in its (ascending-key) order and
emit each `int64_t` key through `Int32::New(iter->first)`, i.e. truncated
to a signed 32-bit value. -/
def BypassStore.List (store : CacheMap) : V8Value × CacheMap :=
  (.arr (store.map fun p => .num (.finite ((toInt32 p.1 : ℤ) : ℚ))), store)

mutual

/-- Structural (value) equality of modelled v8 values: used to state the
spec's "structurally equal".  Mirrors constructor-wise equality. -/
def beqV : V8Value → V8Value → Bool
| .num d1, .num d2 => d1 == d2
| .str s1, .str s2 => s1 == s2
| .boolean b1, .boolean b2 => b1 == b2
| .undefined, .undefined => true
| .null, .null => true
| .func, .func => true
| .arr xs, .arr ys => beqVElems xs ys
| .obj ps, .obj qs => beqVProps ps qs
| _, _ => false

def beqVElems : List V8Value → List V8Value → Bool
| [], [] => true
| x :: xs, y :: ys => beqV x y && beqVElems xs ys
| _, _ => false

def beqVProps : List (String × V8Value) → List (String × V8Value) → Bool
| [], [] => true
| (k1, v1) :: r1, (k2, v2) :: r2 => k1 == k2 && beqV v1 v2 && beqVProps r1 r2
| _, _ => false

end

mutual

/-- Canonical form of a v8 value for structural comparison: object
properties are brought into the unique sorted-by-key form (the same
normal form a `std::map` holds), arrays keep their order.  Two values are
"structurally equal" in the sense of the spec's round-trip property —
equal as JavaScript values, where an object is a key→value mapping with no
significant property order — iff their canonical forms are equal. -/
def canon : V8Value → V8Value
| .num d => .num d
| .str s => .str s
| .boolean b => .boolean b
| .undefined => .undefined
| .null => .null
| .func => .func
| .arr elems => .arr (canonElems elems)
| .obj props => .obj (mapInsertAll strLt (canonProps props) [])

def canonElems : List V8Value → List V8Value
| [] => []
| v :: rest => canon v :: canonElems rest

def canonProps : List (String × V8Value) → List (String × V8Value)
| [] => []
| (k, v) :: rest => (k, canon v) :: canonProps rest

end

/-- Structural equality of two modelled v8 values, insensitive to object
property order (JavaScript deep equality of the values). -/
def structEq (a b : V8Value) : Bool := beqV (canon a) (canon b)

mutual

/-- The value is built only from the shapes the spec's round-trip property
ranges over: numbers, strings, arrays and plain objects (an object's own
property names are distinct, as they are for any JavaScript object). -/
def supported : V8Value → Bool
| .num _ => true
| .str _ => true
| .boolean _ => false
| .undefined => false
| .null => false
| .func => false
| .arr elems => supportedElems elems
| .obj props => decide ((props.map Prod.fst).Nodup) && supportedProps props

def supportedElems : List V8Value → Bool
| [] => true
| v :: rest => supported v && supportedElems rest

def supportedProps : List (String × V8Value) → Bool
| [] => true
| (_, v) :: rest => supported v && supportedProps rest

end

/-- An object key that survives the source's key handling unchanged:
ASCII-range (so `String::AsciiValue` extracts it faithfully, spec §4.1.5)
and NUL-free (so reading it back through `c_str()` does not truncate it). -/
def goodKey (k : String) : Bool :=
  k.toList.all fun c => decide (c.toNat ≤ 127) && decide (c.toNat ≠ 0)

mutual

/-- Every object key anywhere in the value is a `goodKey`. -/
def goodKeys : V8Value → Bool
| .num _ => true
| .str _ => true
| .boolean _ => true
| .undefined => true
| .null => true
| .func => true
| .arr elems => goodKeysElems elems
| .obj props => goodKeysProps props

def goodKeysElems : List V8Value → Bool
| [] => true
| v :: rest => goodKeys v && goodKeysElems rest

def goodKeysProps : List (String × V8Value) → Bool
| [] => true
| (k, v) :: rest => goodKey k && goodKeys v && goodKeysProps rest

end

mutual

/-- No `JsUint32` node occurs anywhere in the tree. -/
def noUint32 : JsValue → Bool
| .JsUndefined => true
| .JsString _ _ => true
| .JsNumber _ => true
| .JsInt32 _ => true
| .JsUint32 _ => false
| .JsArray vs => noUint32Elems vs
| .JsObj m => noUint32Props m

def noUint32Elems : List JsValue → Bool
| [] => true
| v :: rest => noUint32 v && noUint32Elems rest

def noUint32Props : List (String × JsValue) → Bool
| [] => true
| (_, v) :: rest => noUint32 v && noUint32Props rest

end


/-! ## Comparator facts -/

theorem charListLt_irrefl : ∀ l : List Char, charListLt l l = false
| [] => rfl
| a :: as => by simp [charListLt, charListLt_irrefl as]

theorem charListLt_asymm : ∀ a b : List Char,
    charListLt a b = true → charListLt b a = false
| [], [] => by simp [charListLt]
| [], _ :: _ => by simp [charListLt]
| _ :: _, [] => by simp [charListLt]
| a :: as, b :: bs => by
  simp only [charListLt]
  intro h1
  rcases Nat.lt_trichotomy a.toNat b.toNat with h | h | h
  · rw [if_neg (by omega), if_pos h]
  · rw [if_neg (by omega), if_neg (by omega)] at h1
    rw [if_neg (by omega), if_neg (by omega)]
    exact charListLt_asymm as bs h1
  · rw [if_neg (by omega), if_pos h] at h1
    exact Bool.noConfusion h1

theorem charListLt_trans : ∀ a b c : List Char,
    charListLt a b = true → charListLt b c = true → charListLt a c = true
| [], [], [] => by simp [charListLt]
| [], [], _ :: _ => by simp [charListLt]
| [], _ :: _, [] => by simp [charListLt]
| [], _ :: _, _ :: _ => by simp [charListLt]
| _ :: _, [], _ => by simp [charListLt]
| _ :: _, _ :: _, [] => by simp [charListLt]
| a :: as, b :: bs, c :: cs => by
  simp only [charListLt]
  intro h1 h2
  rcases Nat.lt_trichotomy a.toNat b.toNat with hab | hab | hab
  · rcases Nat.lt_trichotomy b.toNat c.toNat with hbc | hbc | hbc
    · rw [if_pos (by omega)]
    · rw [if_pos (by omega)]
    · rw [if_neg (by omega), if_pos hbc] at h2
      exact Bool.noConfusion h2
  · rcases Nat.lt_trichotomy b.toNat c.toNat with hbc | hbc | hbc
    · rw [if_pos (by omega)]
    · rw [if_neg (by omega), if_neg (by omega)] at h1
      rw [if_neg (by omega), if_neg (by omega)] at h2
      rw [if_neg (by omega), if_neg (by omega)]
      exact charListLt_trans as bs cs h1 h2
    · rw [if_neg (by omega), if_pos hbc] at h2
      exact Bool.noConfusion h2
  · rw [if_neg (by omega), if_pos hab] at h1
    exact Bool.noConfusion h1

theorem charListLt_antisymm : ∀ a b : List Char,
    charListLt a b = false → charListLt b a = false → a = b
| [], [] => by simp
| [], _ :: _ => by simp [charListLt]
| _ :: _, [] => by simp [charListLt]
| a :: as, b :: bs => by
  simp only [charListLt]
  intro h1 h2
  rcases Nat.lt_trichotomy a.toNat b.toNat with h | h | h
  · rw [if_pos h] at h1
    exact Bool.noConfusion h1
  · rw [if_neg (by omega), if_neg (by omega)] at h1
    rw [if_neg (by omega), if_neg (by omega)] at h2
    have hc : a = b := by rw [← Char.ofNat_toNat a, ← Char.ofNat_toNat b, h]
    rw [hc, charListLt_antisymm as bs h1 h2]
  · rw [if_pos h] at h2
    exact Bool.noConfusion h2

theorem strLt_spec : LtSpec strLt := by
  constructor
  · intro a; exact charListLt_irrefl _
  · intro a b h; exact charListLt_asymm _ _ h
  · intro a b c h1 h2; exact charListLt_trans _ _ _ h1 h2
  · intro a b h1 h2
    have h3 := charListLt_antisymm _ _ h1 h2
    cases a; cases b
    exact congrArg String.mk h3

theorem intLt_spec : LtSpec intLt := by
  constructor <;> intro a <;> intros <;> simp_all [intLt] <;> omega


/-! ## `std::map` model facts -/

theorem mapLookup_mapInsert_self {κ β : Type} {lt : κ → κ → Bool} (hs : LtSpec lt)
    (k : κ) (v : β) : ∀ m : List (κ × β), mapLookup lt k (mapInsert lt k v m) = some v
| [] => by simp [mapInsert, mapLookup, hs.irrefl]
| (k2, v2) :: rest => by
  cases hC : lt k k2 <;> cases hD : lt k2 k
  · simp [mapInsert, hC, hD, mapLookup, hs.irrefl]
  · simp [mapInsert, hC, hD, mapLookup, mapLookup_mapInsert_self hs k v rest]
  · simp [mapInsert, hC, hD, mapLookup, hs.irrefl]
  · simp [mapInsert, hC, hD, mapLookup, hs.irrefl]

theorem mapLookup_mapInsert_ne {κ β : Type} {lt : κ → κ → Bool} (hs : LtSpec lt)
    {k k2 : κ} (v : β) (hne : k2 ≠ k) :
    ∀ m : List (κ × β), mapLookup lt k2 (mapInsert lt k v m) = mapLookup lt k2 m
| [] => by
  cases hA : lt k2 k <;> cases hB : lt k k2
  · exact absurd (hs.antisymm _ _ hA hB) hne
  · simp [mapInsert, mapLookup, hA, hB]
  · simp [mapInsert, mapLookup, hA, hB]
  · simp [mapInsert, mapLookup, hA, hB]
| (k3, v3) :: rest => by
  cases hC : lt k k3 <;> cases hD : lt k3 k
  · have h3 : k = k3 := hs.antisymm _ _ hC hD
    subst h3
    cases hA : lt k2 k <;> cases hB : lt k k2
    · exact absurd (hs.antisymm _ _ hA hB) hne
    · simp [mapInsert, mapLookup, hA, hB, hC, hD]
    · simp [mapInsert, mapLookup, hA, hB, hC, hD]
    · simp [mapInsert, mapLookup, hA, hB, hC, hD]
  · simp [mapInsert, hC, hD, mapLookup, mapLookup_mapInsert_ne hs v hne rest]
  · cases hA : lt k2 k <;> cases hB : lt k k2
    · exact absurd (hs.antisymm _ _ hA hB) hne
    · simp [mapInsert, mapLookup, hA, hB, hC]
    · simp [mapInsert, mapLookup, hA, hB, hC]
    · simp [mapInsert, mapLookup, hA, hB, hC]
  · have h5 := hs.asymm _ _ hC
    rw [hD] at h5
    exact Bool.noConfusion h5

theorem mapInsert_mapInsert_same {κ β : Type} {lt : κ → κ → Bool} (hs : LtSpec lt)
    (k : κ) (a b : β) :
    ∀ m : List (κ × β), mapInsert lt k b (mapInsert lt k a m) = mapInsert lt k b m
| [] => by simp [mapInsert, hs.irrefl]
| (k2, v2) :: rest => by
  cases hC : lt k k2 <;> cases hD : lt k2 k
  · simp [mapInsert, hC, hD, hs.irrefl]
  · simp [mapInsert, hC, hD, mapInsert_mapInsert_same hs k a b rest]
  · simp [mapInsert, hC, hD, hs.irrefl]
  · have h5 := hs.asymm _ _ hC
    rw [hD] at h5
    exact Bool.noConfusion h5

theorem mapLookup_mapErase_self {κ β : Type} {lt : κ → κ → Bool} (k : κ) :
    ∀ m : List (κ × β), mapLookup lt k (mapErase lt k m) = none
| [] => rfl
| (k2, v2) :: rest => by
  cases hA : lt k2 k <;> cases hB : lt k k2
  · simp [mapErase, hA, hB, mapLookup_mapErase_self k rest]
  · simp [mapErase, hA, hB, mapLookup, mapLookup_mapErase_self k rest]
  · simp [mapErase, hA, hB, mapLookup, mapLookup_mapErase_self k rest]
  · simp [mapErase, hA, hB, mapLookup, mapLookup_mapErase_self k rest]

theorem mapLookup_mapErase_ne {κ β : Type} {lt : κ → κ → Bool} (hs : LtSpec lt)
    {k k2 : κ} (hne : k2 ≠ k) :
    ∀ m : List (κ × β), mapLookup lt k2 (mapErase lt k m) = mapLookup lt k2 m
| [] => rfl
| (k3, v3) :: rest => by
  cases hA : lt k3 k <;> cases hB : lt k k3
  · have h3 : k3 = k := hs.antisymm _ _ hA hB
    subst h3
    cases hC : lt k2 k3 <;> cases hD : lt k3 k2
    · exact absurd (hs.antisymm _ _ hC hD) hne
    · simp [mapErase, hA, hB, mapLookup, hC, hD, mapLookup_mapErase_ne hs hne rest]
    · simp [mapErase, hA, hB, mapLookup, hC, hD, mapLookup_mapErase_ne hs hne rest]
    · simp [mapErase, hA, hB, mapLookup, hC, hD, mapLookup_mapErase_ne hs hne rest]
  · simp [mapErase, hA, hB, mapLookup, mapLookup_mapErase_ne hs hne rest]
  · simp [mapErase, hA, hB, mapLookup, mapLookup_mapErase_ne hs hne rest]
  · simp [mapErase, hA, hB, mapLookup, mapLookup_mapErase_ne hs hne rest]

theorem mapErase_absent {κ β : Type} {lt : κ → κ → Bool} (k : κ) :
    ∀ m : List (κ × β), mapLookup lt k m = none → mapErase lt k m = m
| [] => fun _ => rfl
| (k2, v2) :: rest => by
  intro h
  cases hA : lt k k2 <;> cases hB : lt k2 k <;> simp [mapLookup, hA, hB] at h <;>
    simp [mapErase, hA, hB, mapErase_absent k rest h]

theorem mem_mapInsert {κ β : Type} {lt : κ → κ → Bool} {p : κ × β} (k : κ) (v : β) :
    ∀ m : List (κ × β), p ∈ mapInsert lt k v m → p = (k, v) ∨ p ∈ m
| [] => by simp [mapInsert]
| (k2, v2) :: rest => by
  cases hC : lt k k2 <;> cases hD : lt k2 k <;> intro hp
  · simp only [mapInsert, hC, hD] at hp
    simp at hp ⊢
    tauto
  · simp only [mapInsert, hC, hD] at hp
    simp at hp ⊢
    rcases hp with h | h
    · tauto
    · rcases mem_mapInsert k v rest h with h2 | h2 <;> tauto
  · simp only [mapInsert, hC] at hp
    simp at hp ⊢
    tauto
  · simp only [mapInsert, hC] at hp
    simp at hp ⊢
    tauto

theorem mem_keys_mapInsert {κ β : Type} {lt : κ → κ → Bool} {x : κ} (k : κ) (v : β)
    (m : List (κ × β)) (hx : x ∈ (mapInsert lt k v m).map Prod.fst) :
    x = k ∨ x ∈ m.map Prod.fst := by
  simp only [List.mem_map] at hx ⊢
  obtain ⟨p, hp, hpx⟩ := hx
  rcases mem_mapInsert k v m hp with h | h
  · left; rw [← hpx, h]
  · right; exact ⟨p, h, hpx⟩

theorem mapInsert_perm {κ β : Type} {lt : κ → κ → Bool} (hs : LtSpec lt) (k : κ) (v : β) :
    ∀ m : List (κ × β), k ∉ m.map Prod.fst → (mapInsert lt k v m).Perm ((k, v) :: m)
| [] => by simp [mapInsert]
| (k2, v2) :: rest => by
  intro hk
  have hk2 : k ≠ k2 := by intro h; apply hk; simp [h]
  have hkrest : k ∉ rest.map Prod.fst := by
    intro h; apply hk; simp [h]
  cases hC : lt k k2 <;> cases hD : lt k2 k
  · exact absurd (hs.antisymm _ _ hC hD) hk2
  · simp only [mapInsert, hC, hD, Bool.false_eq_true, if_false, if_true]
    exact ((mapInsert_perm hs k v rest hkrest).cons (k2, v2)).trans
      (List.Perm.swap (k, v) (k2, v2) rest)
  · simp [mapInsert, hC, hD]
  · simp [mapInsert, hC, hD]

theorem pairwise_mapInsert {κ β : Type} {lt : κ → κ → Bool} (hs : LtSpec lt)
    (k : κ) (v : β) :
    ∀ m : List (κ × β), m.Pairwise (fun p q => lt p.1 q.1 = true) →
      (mapInsert lt k v m).Pairwise (fun p q => lt p.1 q.1 = true)
| [] => by simp [mapInsert]
| (k2, v2) :: rest => by
  intro hp
  rw [List.pairwise_cons] at hp
  obtain ⟨h1, h2⟩ := hp
  cases hC : lt k k2 <;> cases hD : lt k2 k
  · have he : k = k2 := hs.antisymm _ _ hC hD
    subst he
    simp only [mapInsert, hC, hD, Bool.false_eq_true, if_false]
    rw [List.pairwise_cons]
    exact ⟨h1, h2⟩
  · simp only [mapInsert, hC, hD, Bool.false_eq_true, if_false, if_true]
    rw [List.pairwise_cons]
    constructor
    · intro q hq
      rcases mem_mapInsert k v rest hq with h | h
      · rw [h]; exact hD
      · exact h1 q h
    · exact pairwise_mapInsert hs k v rest h2
  · simp only [mapInsert, hC, if_true]
    rw [List.pairwise_cons]
    constructor
    · intro q hq
      rcases List.mem_cons.mp hq with h | h
      · rw [h]; exact hC
      · exact hs.trans _ _ _ hC (h1 q h)
    · rw [List.pairwise_cons]
      exact ⟨h1, h2⟩
  · simp only [mapInsert, hC, if_true]
    rw [List.pairwise_cons]
    constructor
    · intro q hq
      rcases List.mem_cons.mp hq with h | h
      · rw [h]; exact hC
      · exact hs.trans _ _ _ hC (h1 q h)
    · rw [List.pairwise_cons]
      exact ⟨h1, h2⟩

theorem pairwise_mapInsertAll {κ β : Type} {lt : κ → κ → Bool} (hs : LtSpec lt) :
    ∀ (l m : List (κ × β)), m.Pairwise (fun p q => lt p.1 q.1 = true) →
      (mapInsertAll lt l m).Pairwise (fun p q => lt p.1 q.1 = true)
| [], _ => fun h => h
| p :: rest, m => fun h =>
  pairwise_mapInsertAll hs rest _ (pairwise_mapInsert hs p.1 p.2 m h)

theorem mapInsertAll_perm {κ β : Type} {lt : κ → κ → Bool} (hs : LtSpec lt) :
    ∀ (l m : List (κ × β)), (l.map Prod.fst).Nodup →
      (∀ x ∈ l.map Prod.fst, x ∉ m.map Prod.fst) →
      (mapInsertAll lt l m).Perm (l ++ m)
| [], m => by simp [mapInsertAll]
| (k, v) :: rest, m => by
  intro hnd hdis
  simp only [List.map_cons, List.nodup_cons] at hnd
  obtain ⟨hk, hnd2⟩ := hnd
  have hkm : k ∉ m.map Prod.fst := hdis k (by simp)
  have hdis2 : ∀ x ∈ rest.map Prod.fst, x ∉ (mapInsert lt k v m).map Prod.fst := by
    intro x hx hmem
    rcases mem_keys_mapInsert k v m hmem with h | h
    · rw [h] at hx; exact hk hx
    · exact hdis x (by simp [hx]) h
  have ih := mapInsertAll_perm hs rest (mapInsert lt k v m) hnd2 hdis2
  simp only [mapInsertAll]
  refine ih.trans ?_
  refine (List.Perm.append_left rest (mapInsert_perm hs k v m hkm)).trans ?_
  exact List.perm_middle

theorem mapInsertAll_eq_of_perm {κ β : Type} {lt : κ → κ → Bool} (hs : LtSpec lt)
    {l1 l2 : List (κ × β)} (hp : l1.Perm l2) (hnd : (l1.map Prod.fst).Nodup) :
    mapInsertAll lt l1 [] = mapInsertAll lt l2 [] := by
  have hnd2 : (l2.map Prod.fst).Nodup := ((hp.map Prod.fst).nodup_iff).mp hnd
  have p1 := mapInsertAll_perm hs l1 [] hnd (by simp)
  have p2 := mapInsertAll_perm hs l2 [] hnd2 (by simp)
  rw [List.append_nil] at p1 p2
  have hps : (mapInsertAll lt l1 []).Perm (mapInsertAll lt l2 []) :=
    (p1.trans hp).trans p2.symm
  have hs1 := pairwise_mapInsertAll hs l1 [] List.Pairwise.nil
  have hs2 := pairwise_mapInsertAll hs l2 [] List.Pairwise.nil
  exact @List.eq_of_perm_of_sorted _ _
    ⟨fun a b ha hb => absurd hb (by rw [hs.asymm _ _ ha]; exact Bool.noConfusion)⟩
    _ _ hps hs1 hs2

/-! ## Shape of the conversion loops -/

theorem fromElems_eq (l : List V8Value) : fromElems l = l.map from_v8 := by
  induction l with
  | nil => rfl
  | cons x xs ih => simp [fromElems, ih]

theorem fromProps_eq : ∀ (ps : List (String × V8Value)) (m : List (String × JsValue)),
    fromProps ps m = mapInsertAll strLt (ps.map fun p => (asciiValue p.1, from_v8 p.2)) m
| [], _ => rfl
| (k, v) :: rest, m => by
  simp only [fromProps, List.map_cons, mapInsertAll]
  exact fromProps_eq rest _

theorem toElems_eq (l : List JsValue) : toElems l = l.map to_v8 := by
  induction l with
  | nil => rfl
  | cons x xs ih => simp [toElems, ih]

theorem toProps_eq (m : List (String × JsValue)) :
    toProps m = m.map fun p => (cstr p.1, to_v8 p.2) := by
  induction m with
  | nil => rfl
  | cons p rest ih => obtain ⟨k, v⟩ := p; simp [toProps, ih]

theorem canonElems_eq (l : List V8Value) : canonElems l = l.map canon := by
  induction l with
  | nil => rfl
  | cons x xs ih => simp [canonElems, ih]

theorem canonProps_eq (ps : List (String × V8Value)) :
    canonProps ps = ps.map fun p => (p.1, canon p.2) := by
  induction ps with
  | nil => rfl
  | cons p rest ih => obtain ⟨k, v⟩ := p; simp [canonProps, ih]

/-! ## Reflexivity of the structural-equality test -/

mutual

theorem beqV_refl : ∀ a : V8Value, beqV a a = true
| .num _ => by simp [beqV]
| .str _ => by simp [beqV]
| .boolean _ => by simp [beqV]
| .undefined => rfl
| .null => rfl
| .func => rfl
| .arr elems => by simp [beqV, beqVElems_refl elems]
| .obj props => by simp [beqV, beqVProps_refl props]

theorem beqVElems_refl : ∀ l : List V8Value, beqVElems l l = true
| [] => rfl
| x :: xs => by simp [beqVElems, beqV_refl x, beqVElems_refl xs]

theorem beqVProps_refl : ∀ ps : List (String × V8Value), beqVProps ps ps = true
| [] => rfl
| (k, v) :: rest => by simp [beqVProps, beqV_refl v, beqVProps_refl rest]

end

theorem beqV_of_eq {a b : V8Value} (h : a = b) : beqV a b = true := by
  rw [h]; exact beqV_refl b

/-! ## Numeric facts -/

theorem toInt32_of_range {n : ℤ} (h1 : -(2 ^ 31) ≤ n) (h2 : n < 2 ^ 31) :
    toInt32 n = n := by
  unfold toInt32
  omega

theorem ratTrunc_den_one {q : ℚ} (h : q.den = 1) : ratTrunc q = q.num := by
  unfold ratTrunc
  rw [h, Nat.div_one]
  exact Int.sign_mul_natAbs q.num

/-- Unpack a successful `IsInt32` test. -/
theorem isInt32_elim {d : Dbl} (h : d.isInt32 = true) :
    ∃ q : ℚ, d = .finite q ∧ q.den = 1 ∧ -(2 ^ 31) ≤ q.num ∧ q.num < 2 ^ 31 := by
  cases d <;> simp [Dbl.isInt32] at h
  case finite q =>
    exact ⟨q, rfl, h.1.1, h.1.2, h.2⟩

/-- An `IsInt32` number decodes back to the very same double. -/
theorem int32_roundtrip {d : Dbl} (h : d.isInt32 = true) :
    to_v8 (.JsInt32 d.int32Value) = .num d := by
  obtain ⟨q, rfl, hden, hlo, hhi⟩ := isInt32_elim h
  have h1 : Dbl.int32Value (.finite q) = q.num := by
    simp [Dbl.int32Value, ratTrunc_den_one hden, toInt32_of_range hlo hhi]
  rw [h1, to_v8]
  have h2 : (q.num : ℚ) = q := (Rat.den_eq_one_iff q).mp hden
  rw [h2]

/-! ## Key extraction facts -/

theorem asciiValue_of_goodKey {k : String} (h : goodKey k = true) : asciiValue k = k := by
  unfold goodKey at h
  rw [List.all_eq_true] at h
  unfold asciiValue
  have h1 : k.toList.map (fun c => if c.toNat ≤ 127 then c else '?') =
      k.toList.map id :=
    List.map_congr_left fun c hc => by
      have h2 := h c hc
      simp only [Bool.and_eq_true, decide_eq_true_eq] at h2
      simp [h2.1]
  rw [h1, List.map_id]
  cases k; rfl

theorem cstr_of_goodKey {k : String} (h : goodKey k = true) : cstr k = k := by
  unfold goodKey at h
  rw [List.all_eq_true] at h
  unfold cstr
  rw [List.takeWhile_eq_self_iff.mpr ?h1]
  · cases k; rfl
  · intro c hc
    have h2 := h c hc
    simp only [Bool.and_eq_true, decide_eq_true_eq] at h2
    simp [h2.2]

/-! ## Round trip -/

theorem goodKey_of_mem_props : ∀ ps : List (String × V8Value),
    goodKeysProps ps = true → ∀ p ∈ ps, goodKey p.1 = true
| [] => by simp
| (k, v) :: rest => by
  intro h p hp
  simp only [goodKeysProps, Bool.and_eq_true] at h
  rcases List.mem_cons.mp hp with h2 | h2
  · rw [h2]; exact h.1.1
  · exact goodKey_of_mem_props rest h.2 p h2

mutual

theorem rt_canon : ∀ v : V8Value, supported v = true → goodKeys v = true →
    canon (to_v8 (from_v8 v)) = canon v
| .num d => by
  intro _ _
  cases hi : d.isInt32
  · simp [from_v8, hi, to_v8]
  · simp [from_v8, hi, int32_roundtrip hi]
| .str s => by intro _ _; simp [from_v8, to_v8]
| .boolean b => by intro h _; exact Bool.noConfusion h
| .undefined => by intro h _; exact Bool.noConfusion h
| .null => by intro h _; exact Bool.noConfusion h
| .func => by intro h _; exact Bool.noConfusion h
| .arr elems => by
  intro h1 h2
  simp only [supported] at h1
  simp only [goodKeys] at h2
  simp only [from_v8, to_v8, canon]
  rw [rt_canonElems elems h1 h2]
| .obj ps => by
  intro h1 h2
  simp only [supported, Bool.and_eq_true, decide_eq_true_eq] at h1
  simp only [goodKeys] at h2
  obtain ⟨hnd, hsup⟩ := h1
  have hkeys : (ps.map fun p => (asciiValue p.1, from_v8 p.2)).map Prod.fst =
      ps.map Prod.fst := by
    rw [List.map_map]
    apply List.map_congr_left
    intro p hp
    simp only [Function.comp_apply]
    exact asciiValue_of_goodKey (goodKey_of_mem_props ps h2 p hp)
  have hndE : ((ps.map fun p => (asciiValue p.1, from_v8 p.2)).map Prod.fst).Nodup := by
    rw [hkeys]; exact hnd
  have hpermM : (fromProps ps []).Perm (ps.map fun p => (asciiValue p.1, from_v8 p.2)) := by
    rw [fromProps_eq ps []]
    have hb := mapInsertAll_perm strLt_spec
      (ps.map fun p => (asciiValue p.1, from_v8 p.2)) [] hndE (by simp)
    simpa using hb
  have hmapDE : ((ps.map fun p => (asciiValue p.1, from_v8 p.2)).map
        fun p => (cstr p.1, canon (to_v8 p.2))) =
      ps.map fun p => (p.1, canon p.2) := by
    rw [List.map_map]
    have hgoal := rt_canonProps ps hsup h2
    simpa [Function.comp] using hgoal
  have hperm2 : ((fromProps ps []).map fun p => (cstr p.1, canon (to_v8 p.2))).Perm
      (ps.map fun p => (p.1, canon p.2)) := by
    have hm := hpermM.map (fun p => (cstr p.1, canon (to_v8 p.2)))
    rw [hmapDE] at hm
    exact hm
  have hndC : ((ps.map fun p => (p.1, canon p.2)).map Prod.fst).Nodup := by
    rw [List.map_map]
    have he : (ps.map (Prod.fst ∘ fun p => (p.1, canon p.2))) = ps.map Prod.fst :=
      List.map_congr_left fun p _ => rfl
    rw [he]; exact hnd
  have hfinal := mapInsertAll_eq_of_perm strLt_spec hperm2.symm hndC
  simp only [from_v8, to_v8, canon]
  rw [canonProps_eq, toProps_eq, List.map_map, canonProps_eq]
  refine congrArg V8Value.obj ?_
  have hcomp : ((fun p : String × V8Value => (p.1, canon p.2)) ∘
      fun p : String × JsValue => (cstr p.1, to_v8 p.2)) =
      fun p : String × JsValue => (cstr p.1, canon (to_v8 p.2)) := rfl
  rw [hcomp]
  exact hfinal.symm

theorem rt_canonElems : ∀ l : List V8Value, supportedElems l = true →
    goodKeysElems l = true → canonElems (toElems (fromElems l)) = canonElems l
| [] => by intro _ _; rfl
| x :: xs => by
  intro h1 h2
  simp only [supportedElems, Bool.and_eq_true] at h1
  simp only [goodKeysElems, Bool.and_eq_true] at h2
  simp only [fromElems, toElems, canonElems]
  rw [rt_canon x h1.1 h2.1, rt_canonElems xs h1.2 h2.2]

theorem rt_canonProps : ∀ ps : List (String × V8Value), supportedProps ps = true →
    goodKeysProps ps = true →
    (ps.map fun p => (cstr (asciiValue p.1), canon (to_v8 (from_v8 p.2)))) =
      ps.map fun p => (p.1, canon p.2)
| [] => by intro _ _; rfl
| (k, v) :: rest => by
  intro h1 h2
  simp only [supportedProps, Bool.and_eq_true] at h1
  simp only [goodKeysProps, Bool.and_eq_true] at h2
  simp only [List.map_cons]
  rw [rt_canonProps rest h1.2 h2.2,
    asciiValue_of_goodKey h2.1.1, cstr_of_goodKey h2.1.1, rt_canon v h1.1 h2.1.2]

end

/-! ## No `JsUint32` is ever produced -/

theorem noUint32_mapInsert {lt : String → String → Bool} (k : String) (v : JsValue) :
    ∀ m : List (String × JsValue), noUint32 v = true → noUint32Props m = true →
      noUint32Props (mapInsert lt k v m) = true
| [] => by
  intro hv _
  simp [mapInsert, noUint32Props, hv]
| (k2, v2) :: rest => by
  intro hv hm
  simp only [noUint32Props, Bool.and_eq_true] at hm
  cases hC : lt k k2 <;> cases hD : lt k2 k
  · simp [mapInsert, hC, hD, noUint32Props, hv, hm.2]
  · simp [mapInsert, hC, hD, noUint32Props, hm.1,
      noUint32_mapInsert k v rest hv hm.2]
  · simp [mapInsert, hC, hD, noUint32Props, hv, hm.1, hm.2]
  · simp [mapInsert, hC, hD, noUint32Props, hv, hm.1, hm.2]

mutual

theorem noU_from : ∀ v : V8Value, noUint32 (from_v8 v) = true
| .num d => by cases hi : d.isInt32 <;> simp [from_v8, hi, noUint32]
| .str s => by simp [from_v8, noUint32]
| .boolean b => by simp [from_v8, noUint32]
| .undefined => rfl
| .null => rfl
| .func => rfl
| .arr elems => by
  simp only [from_v8, noUint32]
  exact noU_fromElems elems
| .obj props => by
  simp only [from_v8, noUint32]
  exact noU_fromProps props [] rfl

theorem noU_fromElems : ∀ l : List V8Value, noUint32Elems (fromElems l) = true
| [] => rfl
| x :: xs => by
  simp only [fromElems, noUint32Elems, Bool.and_eq_true]
  exact ⟨noU_from x, noU_fromElems xs⟩

theorem noU_fromProps : ∀ (ps : List (String × V8Value)) (m : List (String × JsValue)),
    noUint32Props m = true → noUint32Props (fromProps ps m) = true
| [], _ => fun h => h
| (k, v) :: rest, m => fun h => by
  simp only [fromProps]
  exact noU_fromProps rest _ (noUint32_mapInsert _ _ m (noU_from v) h)

end

/-! ## The claims -/

/-- Claim C1 (amended): for every foreign value built only from numbers,
32-bit integers, strings, arrays and plain objects (acyclic), **whose
object keys are ASCII-range and NUL-free**, `decode (encode v)` is
structurally equal to `v` — equal as JavaScript values, where object
property order is not significant.  (Booleans are excluded by construction
of `supported`; numbers, in particular integers outside the signed 32-bit
range, are carried as the very same double.)  The ASCII/NUL condition is
forced by `c1_counterexample`. -/
theorem c1_round_trip (v : V8Value) (h1 : supported v = true)
    (h2 : goodKeys v = true) : structEq (to_v8 (from_v8 v)) v = true := by
  unfold structEq
  rw [rt_canon v h1 h2]
  exact beqV_refl _

/-- Claim C1, as frozen, is false: an object key outside the ASCII range is
mangled by `String::AsciiValue` (here `"é"` becomes `"?"`), and a key with
an embedded NUL byte is truncated by `c_str()` on decode, so both objects
fail the round trip even though they are built only from the allowed
shapes. -/
theorem c1_counterexample :
    (supported (.obj [("é", .str "x")]) = true ∧
      structEq (to_v8 (from_v8 (.obj [("é", .str "x")]))) (.obj [("é", .str "x")]) = false) ∧
    (supported (.obj [("a\x00b", .str "x")]) = true ∧
      structEq (to_v8 (from_v8 (.obj [("a\x00b", .str "x")])))
        (.obj [("a\x00b", .str "x")]) = false) :=
  ⟨⟨rfl, rfl⟩, ⟨rfl, rfl⟩⟩

/-- Witness for C1's amended theorem at a concrete value (an object whose
property order is not already sorted, so the round trip genuinely reorders
it while remaining structurally equal). -/
theorem c1_witness :
    supported (.obj [("b", .str "x"), ("a", .str "y")]) = true ∧
    goodKeys (.obj [("b", .str "x"), ("a", .str "y")]) = true ∧
    structEq (to_v8 (from_v8 (.obj [("b", .str "x"), ("a", .str "y")])))
      (.obj [("b", .str "x"), ("a", .str "y")]) = true :=
  ⟨rfl, rfl, c1_round_trip _ rfl rfl⟩

/-- Claim C2: `set k v` then `get k` returns exactly `decode (encode v)`,
and `set k v1; set k v2` leaves the same store as `set k v2` alone — the
overwrite discards the first tree entirely. -/
theorem c2_set_get_coherence (s : CacheMap) (key v v1 v2 : V8Value) :
    (BypassStore.Get (BypassStore.Set s key v) key).1 = to_v8 (from_v8 v) ∧
    BypassStore.Set (BypassStore.Set s key v1) key v2 = BypassStore.Set s key v2 := by
  constructor
  · simp [BypassStore.Get, BypassStore.Set, mapLookup_mapInsert_self intLt_spec]
  · simp [BypassStore.Set, mapInsert_mapInsert_same intLt_spec]

/-- Claim C3: the classification of `from_v8`, case by case — an `IsInt32`
number becomes `JsInt32` of its 32-bit value, any other number becomes
`JsNumber` of the unchanged double, a string becomes `JsString` carrying
its UTF-8 byte count, an array becomes `JsArray` with the elements encoded
in index order, an object becomes `JsObj` of the key-mapped property fold,
and booleans, `undefined`, `null` and functions all become `JsUndefined`.
`from_v8` is a total function, so encoding never raises an error. -/
theorem c3_classification (d : Dbl) (s : String) (b : Bool)
    (elems : List V8Value) (props : List (String × V8Value)) :
    from_v8 (.num d) = (if d.isInt32 then .JsInt32 d.int32Value else .JsNumber d) ∧
    from_v8 (.str s) = .JsString s s.utf8ByteSize ∧
    from_v8 (.arr elems) = .JsArray (elems.map from_v8) ∧
    from_v8 (.obj props) =
      .JsObj (mapInsertAll strLt (props.map fun p => (asciiValue p.1, from_v8 p.2)) []) ∧
    from_v8 (.boolean b) = .JsUndefined ∧
    from_v8 .undefined = .JsUndefined ∧
    from_v8 .null = .JsUndefined ∧
    from_v8 .func = .JsUndefined := by
  refine ⟨rfl, rfl, ?_, ?_, rfl, rfl, rfl, rfl⟩
  · simp [from_v8, fromElems_eq]
  · simp [from_v8, fromProps_eq]

/-- Claim C4: `get` on an absent key returns the `Undefined` sentinel (not
an error), `get` right after `del` of the same key returns the sentinel on
any store, and `del` of an absent key is a no-op. -/
theorem c4_absent_key (s : CacheMap) (key : V8Value) :
    (mapLookup intLt (integerValue key) s = none →
      (BypassStore.Get s key).1 = .undefined) ∧
    (BypassStore.Get (BypassStore.Del s key) key).1 = .undefined ∧
    (mapLookup intLt (integerValue key) s = none → BypassStore.Del s key = s) := by
  refine ⟨?_, ?_, ?_⟩
  · intro h
    simp [BypassStore.Get, h]
  · simp [BypassStore.Get, BypassStore.Del, mapLookup_mapErase_self]
  · intro h
    exact mapErase_absent _ s h

/-- Witness for C4 at concrete stores: the empty store, and a store that
does hold key `0` before the `del`. -/
theorem c4_witness :
    mapLookup intLt (integerValue (.num (.finite 0))) ([] : CacheMap) = none ∧
    (BypassStore.Get ([] : CacheMap) (.num (.finite 0))).1 = .undefined ∧
    (BypassStore.Get (BypassStore.Del [((0 : ℤ), JsValue.JsString "x" 1)]
      (.num (.finite 0))) (.num (.finite 0))).1 = .undefined ∧
    BypassStore.Del ([] : CacheMap) (.num (.finite 0)) = [] :=
  ⟨rfl, (c4_absent_key [] _).1 rfl, (c4_absent_key [((0 : ℤ), JsValue.JsString "x" 1)] _).2.1,
    (c4_absent_key [] _).2.2 rfl⟩

/-- Claim C5: evaluation of the failing input.  `List` emits each `int64_t`
key through `Int32::New`, so the stored key `2147483648 = 2^31` is listed
as `-2147483648`, not reproduced faithfully; with keys `1` and `2^31` the
listed sequence `[1, -2147483648]` is not even ascending. -/
theorem c5_list_truncates :
    (BypassStore.List (BypassStore.Set [] (.num (.finite 2147483648)) (.str "x"))).1 =
      .arr [.num (.finite (-2147483648))] ∧
    (BypassStore.List (BypassStore.Set (BypassStore.Set [] (.num (.finite 1)) (.str "x"))
        (.num (.finite 2147483648)) (.str "y"))).1 =
      .arr [.num (.finite 1), .num (.finite (-2147483648))] :=
  ⟨rfl, rfl⟩

/-- Claim C6 (amended): the encoded `Object`'s enumeration order is the
ascending (`std::map`) order of the extracted keys, not the source
object's own-property order; when the extracted keys are distinct the map
holds exactly the source's key/value pairs (keys ASCII-extracted, values
recursively encoded), and decode emits exactly those entries, in that
ascending order, with keys read back through `c_str()`. -/
theorem c6_enumeration_sorted (props : List (String × V8Value))
    (h : ((props.map fun p => asciiValue p.1).Nodup)) :
    (fromProps props []).Pairwise (fun p q => strLt p.1 q.1 = true) ∧
    (fromProps props []).Perm (props.map fun p => (asciiValue p.1, from_v8 p.2)) ∧
    to_v8 (from_v8 (.obj props)) =
      .obj ((fromProps props []).map fun p => (cstr p.1, to_v8 p.2)) := by
  have hkeys : (props.map fun p => (asciiValue p.1, from_v8 p.2)).map Prod.fst =
      props.map fun p => asciiValue p.1 := by
    rw [List.map_map]; rfl
  have hnd : ((props.map fun p => (asciiValue p.1, from_v8 p.2)).map Prod.fst).Nodup := by
    rw [hkeys]; exact h
  refine ⟨?_, ?_, ?_⟩
  · rw [fromProps_eq]
    exact pairwise_mapInsertAll strLt_spec _ [] List.Pairwise.nil
  · rw [fromProps_eq]
    have hp := mapInsertAll_perm strLt_spec _ [] hnd (by simp)
    simpa using hp
  · simp [from_v8, to_v8, toProps_eq]

/-- Claim C6, as frozen, is false: for the source object with own-property
order `["b", "a"]`, the encoded `Object` enumerates `["a", "b"]` — the
`std::map` iterates in sorted key order, not source order — and decode
emits the pairs in that sorted order. -/
theorem c6_counterexample :
    (fromProps [("b", V8Value.str "x"), ("a", V8Value.str "y")] []).map Prod.fst ≠
      [("b", V8Value.str "x"), ("a", V8Value.str "y")].map Prod.fst ∧
    (toProps (fromProps [("b", V8Value.str "x"), ("a", V8Value.str "y")] [])).map
      Prod.fst = ["a", "b"] := by
  constructor
  · decide
  · rfl

/-- Witness for C6's amended theorem at the same unsorted two-key object. -/
theorem c6_witness :
    (([("b", V8Value.str "x"), ("a", V8Value.str "y")].map fun p => asciiValue p.1).Nodup) ∧
    ((fromProps [("b", V8Value.str "x"), ("a", V8Value.str "y")] []).Pairwise
        (fun p q => strLt p.1 q.1 = true) ∧
      (fromProps [("b", V8Value.str "x"), ("a", V8Value.str "y")] []).Perm
        ([("b", V8Value.str "x"), ("a", V8Value.str "y")].map
          fun p => (asciiValue p.1, from_v8 p.2)) ∧
      to_v8 (from_v8 (.obj [("b", V8Value.str "x"), ("a", V8Value.str "y")])) =
        .obj ((fromProps [("b", V8Value.str "x"), ("a", V8Value.str "y")] []).map
          fun p => (cstr p.1, to_v8 p.2))) :=
  ⟨by decide, c6_enumeration_sorted _ (by decide)⟩

/-- Claim C7: `JsInt32` and `JsUint32` decode to the exact integer of their
width, `JsNumber` decodes to the unchanged double with no re-detection of
integer-ness, and concretely `set(3, 2147483648)` followed by `get(3)`
yields the double `2147483648`, classified as `JsNumber`, not a 32-bit
integer. -/
theorem c7_numeric (n : ℤ) (m : ℕ) (d : Dbl) :
    to_v8 (.JsInt32 n) = .num (.finite (n : ℚ)) ∧
    to_v8 (.JsUint32 m) = .num (.finite (m : ℚ)) ∧
    to_v8 (.JsNumber d) = .num d ∧
    from_v8 (.num (.finite 2147483648)) = .JsNumber (.finite 2147483648) ∧
    (BypassStore.Get (BypassStore.Set [] (.num (.finite 3)) (.num (.finite 2147483648)))
      (.num (.finite 3))).1 = .num (.finite 2147483648) :=
  ⟨rfl, rfl, rfl, rfl, rfl⟩

/-- Claim C8: no classification path of `from_v8` produces a `JsUint32`
node anywhere in the resulting tree — the variant is dead. -/
theorem c8_no_uint32 (v : V8Value) : noUint32 (from_v8 v) = true := noU_from v

/-- Claim C9: a missing (`undefined`) or non-numeric key argument to
`Set`/`Get`/`Del` is silently coerced to the integer key `0`, so the three
operations behave exactly as if called with the numeric key `0`. -/
theorem c9_key_coercion (s : CacheMap) (key v : V8Value) (h : ∀ d, key ≠ .num d) :
    integerValue key = 0 ∧
    BypassStore.Set s key v = BypassStore.Set s (.num (.finite 0)) v ∧
    BypassStore.Get s key = BypassStore.Get s (.num (.finite 0)) ∧
    BypassStore.Del s key = BypassStore.Del s (.num (.finite 0)) := by
  have h0 : integerValue key = 0 := by
    cases key <;> first | rfl | exact absurd rfl (h _)
  have h0b : integerValue (.num (.finite 0)) = 0 := rfl
  refine ⟨h0, ?_, ?_, ?_⟩ <;>
    simp [BypassStore.Set, BypassStore.Get, BypassStore.Del, h0, h0b]

/-- Witness for C9 with the missing-key argument (`undefined`). -/
theorem c9_witness :
    integerValue .undefined = 0 ∧
    BypassStore.Set [] .undefined (.str "x") =
      BypassStore.Set [] (.num (.finite 0)) (.str "x") ∧
    BypassStore.Get [] .undefined = BypassStore.Get [] (.num (.finite 0)) ∧
    BypassStore.Del [] .undefined = BypassStore.Del [] (.num (.finite 0)) :=
  c9_key_coercion [] .undefined (.str "x") (fun _ hd => V8Value.noConfusion hd)

/-- Claim C10: `Set` and `Del` at one key leave the entry stored at any
other key unchanged, and `Get` and `List` leave the whole store state
unchanged. -/
theorem c10_frame (s : CacheMap) (k1 k2 v : V8Value)
    (h : integerValue k2 ≠ integerValue k1) :
    mapLookup intLt (integerValue k2) (BypassStore.Set s k1 v) =
      mapLookup intLt (integerValue k2) s ∧
    mapLookup intLt (integerValue k2) (BypassStore.Del s k1) =
      mapLookup intLt (integerValue k2) s ∧
    (BypassStore.Get s k1).2 = s ∧
    (BypassStore.List s).2 = s := by
  refine ⟨?_, ?_, rfl, rfl⟩
  · exact mapLookup_mapInsert_ne intLt_spec _ h s
  · exact mapLookup_mapErase_ne intLt_spec h s

/-- Witness for C10 at the distinct keys `1` and `2`, over a store holding
key `1`. -/
theorem c10_witness :
    integerValue (.num (.finite 2)) ≠ integerValue (.num (.finite 1)) ∧
    (mapLookup intLt (integerValue (.num (.finite 2)))
        (BypassStore.Set [((1 : ℤ), JsValue.JsString "z" 1)] (.num (.finite 1)) (.str "x")) =
      mapLookup intLt (integerValue (.num (.finite 2)))
        ([((1 : ℤ), JsValue.JsString "z" 1)] : CacheMap) ∧
    mapLookup intLt (integerValue (.num (.finite 2)))
        (BypassStore.Del [((1 : ℤ), JsValue.JsString "z" 1)] (.num (.finite 1))) =
      mapLookup intLt (integerValue (.num (.finite 2)))
        ([((1 : ℤ), JsValue.JsString "z" 1)] : CacheMap) ∧
    (BypassStore.Get [((1 : ℤ), JsValue.JsString "z" 1)] (.num (.finite 1))).2 =
      [((1 : ℤ), JsValue.JsString "z" 1)] ∧
    (BypassStore.List [((1 : ℤ), JsValue.JsString "z" 1)]).2 =
      [((1 : ℤ), JsValue.JsString "z" 1)]) :=
  ⟨by decide, c10_frame [((1 : ℤ), JsValue.JsString "z" 1)]
    (.num (.finite 1)) (.num (.finite 2)) (.str "x") (by decide)⟩

end Bypass
